import Mathlib

/-!
Verification of the release orchestration script `scripts/release.ts` of the
`tusky-design` repository.

The script is embedded shallowly:

* JavaScript string primitives (`includes`, `startsWith`, `split`, `trim`,
  `parseInt`) are modelled as executable functions on `String` / `List Char`.
* The registry query (`npm view ... version`) is modelled as an
  `Option String` input: `none` when the shelled-out command throws
  (package unpublished), `some out` when it succeeds with stdout `out`.
* The orchestration paths (`createGitHubRelease`, `publishToNpm`, the main
  IIFE) are modelled as functions producing a trace of effects
  (`List Effect`), or an error for the fail-fast path; an error carries no
  effect trace, matching the fact that the script throws before any
  file-system or process side effect.
* The build-directory copy is modelled on an abstract file tree: a list of
  files, each a path (components below the `packages` root) plus byte
  contents.
-/

/-! ## JavaScript string primitives -/

/-- Model of JS `String.prototype.includes` restricted to what the script
needs: `listInfix pat s` decides whether `pat` occurs contiguously in `s`. -/
def listInfix (pat : List Char) : List Char → Bool
  | [] => pat.isEmpty
  | c :: rest => pat.isPrefixOf (c :: rest) || listInfix pat rest

/-- JS `s.includes(pat)`. -/
def jsIncludes (s pat : String) : Bool :=
  listInfix pat.data s.data

/-- JS `s.startsWith(pat)`. -/
def jsStartsWith (s pat : String) : Bool :=
  List.isPrefixOf pat.data s.data

/-- Splitting a character list at a separator character; models JS
`String.prototype.split` with a one-character separator (`''.split(c)` is
`['']`, separators at the ends produce empty fragments). -/
def splitChars (sep : Char) : List Char → List (List Char)
  | [] => [[]]
  | c :: rest =>
    if c = sep then [] :: splitChars sep rest
    else
      match splitChars sep rest with
      | [] => [[c]]
      | h :: t => (c :: h) :: t

/-- JS `s.split(sep)` for a one-character separator. -/
def jsSplit (s : String) (sep : Char) : List String :=
  (splitChars sep s.data).map String.mk

/-- JS `s.trim()`: strip whitespace from both ends. -/
def jsTrim (s : String) : String :=
  String.mk (((s.data.dropWhile Char.isWhitespace).reverse.dropWhile
    Char.isWhitespace).reverse)

/-- Numeric value of a run of leading decimal digits; `none` when there is
no leading digit (JS `NaN`). -/
def readDigits (cs : List Char) : Option Nat :=
  let ds := cs.takeWhile Char.isDigit
  if ds.isEmpty then none
  else some (ds.foldl (fun acc c => acc * 10 + (c.toNat - 48)) 0)

/-- JS `parseInt(s, 10)`: skip leading whitespace, accept an optional sign,
then read leading decimal digits; `none` models `NaN`. -/
def parseIntJS (s : String) : Option Int :=
  match s.data.dropWhile Char.isWhitespace with
  | '-' :: rest => (readDigits rest).map (fun n => -(n : Int))
  | '+' :: rest => (readDigits rest).map (fun n => (n : Int))
  | cs => (readDigits cs).map (fun n => (n : Int))

/-- JS `<` on numbers that may be `NaN`: any comparison involving `NaN`
is false. -/
def intLtJS : Option Int → Option Int → Bool
  | some a, some b => a < b
  | _, _ => false

/-! ## Distribution-tag resolution (`determineDistTag`) -/

/-- The prerelease test of `determineDistTag`: the version string contains
`-` and the substring after the first `-` starts with `beta`, `rc` or
`alpha`. -/
def qualifiesForNext (version : String) : Bool :=
  jsIncludes version "-" &&
    (let prerelease := (jsSplit version '-').getD 1 ""
     jsStartsWith prerelease "beta" || jsStartsWith prerelease "rc" ||
       jsStartsWith prerelease "alpha")

/-- `determineDistTag(version)` with the registry query
(`npm view @juristr/tusky-design version`) supplied as an input:
`none` means the query threw (package not yet published). -/
def determineDistTag (version : String) (registry : Option String) : String :=
  if qualifiesForNext version then "next"
  else
    match registry with
    | none => "latest"
    | some out =>
      let latestVersion := jsTrim out
      if latestVersion.data.isEmpty then "latest"
      else
        let currentMajor := parseIntJS ((jsSplit version '.').getD 0 "")
        let latestMajor := parseIntJS ((jsSplit latestVersion '.').getD 0 "")
        if intLtJS currentMajor latestMajor then "previous" else "latest"

/-! ## Options and argument parsing (`parseArgs`) -/

/-- The parsed invocation parameters (the `Options` interface). The source
field `from` is a Lean keyword, so it is written `«from»` here. -/
structure Options where
  version : String
  dryRun : Bool
  «from» : Option String
  gitRemote : String
deriving DecidableEq, Repr

/-- The initial `options` object of `parseArgs`. -/
def defaultOptions : Options :=
  { version := "minor", dryRun := false, «from» := none, gitRemote := "origin" }

/-- The body of the `for` loop of `parseArgs`, processing one raw
argument. -/
def parseStep (o : Options) (arg : String) : Options :=
  if arg = "--dry-run" then { o with dryRun := true }
  else if jsStartsWith arg "--from=" then
    { o with «from» := some ((jsSplit arg '=').getD 1 "") }
  else if jsStartsWith arg "--git-remote=" then
    { o with gitRemote := (jsSplit arg '=').getD 1 "" }
  else if !(jsStartsWith arg "--") then { o with version := arg }
  else o

/-- `parseArgs()` over the raw argument list (`process.argv.slice(2)`). -/
def parseArgs (args : List String) : Options :=
  args.foldl parseStep defaultOptions

/-! ## Relative version keywords and the orchestration paths -/

/-- `isRelativeVersionKeyword(version)`. -/
def isRelativeVersionKeyword (version : String) : Bool :=
  ["major", "minor", "patch", "premajor", "preminor", "prepatch",
    "prerelease"].contains version

/-- The error thrown by `createGitHubRelease` when given a relative bump
keyword (`Must use exact semver version for releases`). -/
inductive ReleaseError where
  | invalidVersionSpecifier
deriving DecidableEq, Repr

/-- Observable side effects of a run, in order. `copyPackages` stands for
the whole delete-recreate-copy of the build directory; `bumpVersion`,
`changelogRelease` and `publish` are the shelled-out external commands;
`print` is a `console.log`; `exitProcess` is `process.exit`. -/
inductive Effect where
  | copyPackages
  | bumpVersion (specifier : String)
  | changelogRelease (cmd : String)
  | publish (cmd : String)
  | print (msg : String)
  | exitProcess (code : Nat)
deriving DecidableEq, Repr

/-- The changelog command string assembled by `createGitHubRelease`
(`if (options.from)` and `if (options.gitRemote)` are JS truthiness tests,
so an empty string behaves like an absent value). -/
def changelogCmd (o : Options) : String :=
  let base := "pnpm nx release changelog " ++ o.version ++
    " --interactive workspace"
  let withFrom :=
    match o.«from» with
    | some f => if f = "" then base else base ++ " --from " ++ f
    | none => base
  if o.gitRemote = "" then withFrom
  else withFrom ++ " --git-remote " ++ o.gitRemote

/-- `createGitHubRelease(options)`: the staging path. Throws (with no
effects performed) on a relative bump keyword; otherwise copies, bumps,
creates the changelog plus GitHub release, and exits 0. -/
def createGitHubRelease (o : Options) : Except ReleaseError (List Effect) :=
  if isRelativeVersionKeyword o.version then
    .error .invalidVersionSpecifier
  else
    .ok
      [.print "Copying packages to build directory...",
       .copyPackages,
       .print ("Bumping versions to " ++ o.version ++ "..."),
       .bumpVersion o.version,
       .print "Creating changelog and GitHub Release...",
       .changelogRelease (changelogCmd o),
       .print "\nGitHub Release created! Check GitHub Actions for publish status.",
       .exitProcess 0]

/-- The publish command string of `publishToNpm`. -/
def publishCmdFor (tag : String) : String :=
  "pnpm nx release publish --registry=https://registry.npmjs.org --tag=" ++ tag

/-- `publishToNpm(options)`: the publish path, with the registry query
result supplied as an input. -/
def publishToNpm (registry : Option String) (o : Options) : List Effect :=
  let distTag := determineDistTag o.version registry
  [Effect.print "Copying packages to build directory...",
   Effect.copyPackages,
   Effect.print ("Bumping versions to " ++ o.version ++ "..."),
   Effect.bumpVersion o.version,
   Effect.print ("Publishing with tag: " ++ distTag)] ++
    (if o.dryRun then
      [Effect.print ("[DRY RUN] Would execute: " ++ publishCmdFor distTag),
       Effect.exitProcess 0]
    else [Effect.publish (publishCmdFor distTag)])

/-- JS truthiness of `process.env.CI`: set and non-empty. -/
def ciTruthy : Option String → Bool
  | none => false
  | some s => !(s = "")

/-- The main IIFE: `if (!process.env.CI)` run the staging path, else the
publish path. -/
def mainRelease (ci : Option String) (registry : Option String)
    (o : Options) : Except ReleaseError (List Effect) :=
  if ciTruthy ci then .ok (publishToNpm registry o)
  else createGitHubRelease o

/-! ## The build-directory copy (`copyPackagesToBuild`)

The source tree below the `packages` root is modelled as a list of files;
a file is a non-empty path (directory components, final component the file
name) plus its byte contents. Directories exist only implicitly as path
prefixes, so an entry directly below the root is a directory exactly when
some file path of length at least two starts with it (`fs.stat ...
isDirectory`). -/

/-- A file below the `packages` root: path components plus byte contents. -/
structure SrcFile where
  path : List String
  content : List Nat
deriving DecidableEq, Repr

/-- `path.join` of path components with `/`. -/
def pathStr : List String → String
  | [] => ""
  | c :: rest => if rest.isEmpty then c else c ++ "/" ++ pathStr rest

/-- The `filter` option passed to `fs.copy`: reject any source path
containing `node_modules` or `__tests__`. -/
def copyFilterJS (p : String) : Bool :=
  !(jsIncludes p "node_modules") && !(jsIncludes p "__tests__")

/-- The recursive traversal of `fs.copy` with a filter: starting from the
absolute prefix `acc`, each directory on the way down is tested with the
filter and, if it passes, descended into; the file itself is tested last.
A file is copied exactly when every test passes. -/
def copiedAux (acc : String) : List String → Bool
  | [] => true
  | c :: rest => copyFilterJS (acc ++ c) && copiedAux (acc ++ c ++ "/") rest

/-- `copyPackagesToBuild()`. `fs.remove` plus `fs.ensureDir` discard the
previous build directory contents (`prevBuild`) entirely; then every
top-level directory entry of the packages root is copied through the
filtering traversal. `packagesRoot` is the absolute path of the `packages`
directory. -/
def copyPackagesToBuild (packagesRoot : String) (prevBuild : List SrcFile)
    (files : List SrcFile) : List SrcFile :=
  files.filter (fun f =>
    decide (2 ≤ f.path.length) && copiedAux (packagesRoot ++ "/") f.path)

/-! ## Bridge lemmas for the string primitives -/

theorem listInfix_iff (pat s : List Char) :
    listInfix pat s = true ↔ pat <:+: s := by
  induction s with
  | nil => simp [listInfix, List.isEmpty_iff]
  | cons c rest ih => simp [listInfix, ih, List.infix_cons_iff]

theorem jsIncludes_append (s t pat : String) (h : jsIncludes s pat = true) :
    jsIncludes (s ++ t) pat = true := by
  rw [jsIncludes, listInfix_iff] at h ⊢
  rw [String.data_append]
  exact h.trans ⟨[], t.data, by simp⟩

theorem jsStartsWith_trans (a p q : String) (h1 : jsStartsWith a p = true)
    (h2 : jsStartsWith p q = true) : jsStartsWith a q = true := by
  simp only [jsStartsWith, List.isPrefixOf_iff_prefix] at h1 h2 ⊢
  exact h2.trans h1

theorem jsStartsWith_from_not_gitRemote (a : String)
    (h : jsStartsWith a "--from=" = true) :
    jsStartsWith a "--git-remote=" = false := by
  cases hg : jsStartsWith a "--git-remote=" with
  | false => rfl
  | true =>
    exfalso
    simp only [jsStartsWith, List.isPrefixOf_iff_prefix] at h hg
    rcases List.prefix_or_prefix_of_prefix h hg with h2 | h2
    · exact absurd h2 (by decide)
    · exact absurd h2 (by decide)

/-! ## Lemmas about the copy traversal -/

theorem copyFilterJS_of_append (s t : String)
    (h : copyFilterJS (s ++ t) = true) : copyFilterJS s = true := by
  rw [copyFilterJS] at h ⊢
  cases hn : jsIncludes s "node_modules" with
  | true => rw [jsIncludes_append s t _ hn] at h; simp at h
  | false =>
    cases ht : jsIncludes s "__tests__" with
    | true => rw [jsIncludes_append s t _ ht] at h; simp at h
    | false => rfl

theorem copyFilterJS_and_append (s t : String) :
    (copyFilterJS s && copyFilterJS (s ++ t)) = copyFilterJS (s ++ t) := by
  cases h : copyFilterJS (s ++ t) with
  | true => rw [copyFilterJS_of_append s t h, Bool.true_and]
  | false => rw [Bool.and_false]

theorem copiedAux_eq_filter_full (rel : List String) :
    ∀ acc : String, rel ≠ [] →
      copiedAux acc rel = copyFilterJS (acc ++ pathStr rel) := by
  induction rel with
  | nil => intro acc h; exact absurd rfl h
  | cons c rest ih =>
    intro acc _
    cases rest with
    | nil => simp [copiedAux, pathStr]
    | cons c2 rest2 =>
      have hps : pathStr (c :: c2 :: rest2) =
          c ++ "/" ++ pathStr (c2 :: rest2) := by
        simp [pathStr]
      rw [copiedAux, ih (acc ++ c ++ "/") (by simp), hps]
      have h2 := copyFilterJS_and_append (acc ++ c)
        ("/" ++ pathStr (c2 :: rest2))
      simp only [String.append_assoc] at h2 ⊢
      exact h2

/-! ## Lemmas about `parseArgs` -/

theorem parseStep_dryRun (o : Options) (a : String) :
    (parseStep o a).dryRun = (o.dryRun || decide (a = "--dry-run")) := by
  by_cases h1 : a = "--dry-run"
  · subst h1; simp [parseStep]
  · by_cases h2 : jsStartsWith a "--from=" = true
    · simp [parseStep, h1, h2]
    · by_cases h3 : jsStartsWith a "--git-remote=" = true
      · simp [parseStep, h1, h2, h3]
      · by_cases h4 : jsStartsWith a "--" = true
        · simp [parseStep, h1, h2, h3, h4]
        · simp [parseStep, h1, h2, h3, h4]

theorem parseStep_version (o : Options) (a : String) :
    (parseStep o a).version =
      (if jsStartsWith a "--" then o.version else a) := by
  by_cases h1 : a = "--dry-run"
  · subst h1
    have hsw : jsStartsWith "--dry-run" "--" = true := by decide
    simp [parseStep, hsw]
  · by_cases h2 : jsStartsWith a "--from=" = true
    · have hsw : jsStartsWith a "--" = true :=
        jsStartsWith_trans a "--from=" "--" h2 (by decide)
      simp [parseStep, h1, h2, hsw]
    · by_cases h3 : jsStartsWith a "--git-remote=" = true
      · have hsw : jsStartsWith a "--" = true :=
          jsStartsWith_trans a "--git-remote=" "--" h3 (by decide)
        simp [parseStep, h1, h2, h3, hsw]
      · by_cases h4 : jsStartsWith a "--" = true
        · simp [parseStep, h1, h2, h3, h4]
        · simp [parseStep, h1, h2, h3, h4]

theorem parseStep_from (o : Options) (a : String) :
    (parseStep o a).«from» =
      (if jsStartsWith a "--from=" then some ((jsSplit a '=').getD 1 "")
       else o.«from») := by
  by_cases h1 : a = "--dry-run"
  · subst h1
    have h2 : jsStartsWith "--dry-run" "--from=" = false := by decide
    simp [parseStep, h2]
  · by_cases h2 : jsStartsWith a "--from=" = true
    · simp [parseStep, h1, h2]
    · by_cases h3 : jsStartsWith a "--git-remote=" = true
      · simp [parseStep, h1, h2, h3]
      · by_cases h4 : jsStartsWith a "--" = true
        · simp [parseStep, h1, h2, h3, h4]
        · simp [parseStep, h1, h2, h3, h4]

theorem parseStep_gitRemote (o : Options) (a : String) :
    (parseStep o a).gitRemote =
      (if jsStartsWith a "--git-remote=" then (jsSplit a '=').getD 1 ""
       else o.gitRemote) := by
  by_cases h1 : a = "--dry-run"
  · subst h1
    have h3 : jsStartsWith "--dry-run" "--git-remote=" = false := by decide
    simp [parseStep, h3]
  · by_cases h2 : jsStartsWith a "--from=" = true
    · have h3 : jsStartsWith a "--git-remote=" = false :=
        jsStartsWith_from_not_gitRemote a h2
      simp [parseStep, h1, h2, h3]
    · by_cases h3 : jsStartsWith a "--git-remote=" = true
      · simp [parseStep, h1, h2, h3]
      · by_cases h4 : jsStartsWith a "--" = true
        · simp [parseStep, h1, h2, h3, h4]
        · simp [parseStep, h1, h2, h3, h4]

theorem getLast_getD_cons {α : Type} :
    ∀ (t : List α) (a d : α), ((a :: t).getLast?).getD d = (t.getLast?).getD a := by
  intro t
  induction t with
  | nil => intro a d; rfl
  | cons b t2 ih =>
    intro a d
    rw [List.getLast?_cons_cons, ih b d, ih b a]

theorem getLast_map_getD_cons {α β : Type} (f : α → β) :
    ∀ (t : List α) (a : α) (d : β),
      (((a :: t).getLast?).map f).getD d = ((t.getLast?).map f).getD (f a) := by
  intro t
  induction t with
  | nil => intro a d; rfl
  | cons b t2 ih =>
    intro a d
    rw [List.getLast?_cons_cons, ih b d, ih b (f a)]

theorem foldl_parseStep_dryRun (args : List String) :
    ∀ o : Options, (args.foldl parseStep o).dryRun =
      (o.dryRun || args.any (fun a => decide (a = "--dry-run"))) := by
  induction args with
  | nil => intro o; simp
  | cons a rest ih =>
    intro o
    rw [List.foldl_cons, ih (parseStep o a), parseStep_dryRun]
    simp [Bool.or_assoc]

theorem foldl_parseStep_version (args : List String) :
    ∀ o : Options, (args.foldl parseStep o).version =
      ((args.filter (fun a => !(jsStartsWith a "--"))).getLast?).getD
        o.version := by
  induction args with
  | nil => intro o; simp
  | cons a rest ih =>
    intro o
    rw [List.foldl_cons, ih (parseStep o a), parseStep_version,
      List.filter_cons]
    cases h : jsStartsWith a "--" with
    | true => simp [h]
    | false => simp [h, getLast_getD_cons]

theorem foldl_parseStep_from (args : List String) :
    ∀ o : Options, (args.foldl parseStep o).«from» =
      (((args.filter (fun a => jsStartsWith a "--from=")).getLast?).map
        (fun a => some ((jsSplit a '=').getD 1 ""))).getD o.«from» := by
  induction args with
  | nil => intro o; simp
  | cons a rest ih =>
    intro o
    rw [List.foldl_cons, ih (parseStep o a), parseStep_from,
      List.filter_cons]
    cases h : jsStartsWith a "--from=" with
    | true => simp [h, getLast_map_getD_cons]
    | false => simp [h]

theorem foldl_parseStep_gitRemote (args : List String) :
    ∀ o : Options, (args.foldl parseStep o).gitRemote =
      (((args.filter (fun a => jsStartsWith a "--git-remote=")).getLast?).map
        (fun a => (jsSplit a '=').getD 1 "")).getD o.gitRemote := by
  induction args with
  | nil => intro o; simp
  | cons a rest ih =>
    intro o
    rw [List.foldl_cons, ih (parseStep o a), parseStep_gitRemote,
      List.filter_cons]
    cases h : jsStartsWith a "--git-remote=" with
    | true => simp [h, getLast_map_getD_cons]
    | false => simp [h]

/-! ## Claim theorems -/

/-- C1: whenever the candidate version string contains a `-` and the
substring after the first `-` starts with `beta`, `rc` or `alpha`,
`determineDistTag` returns `next` for every possible registry-query
outcome (the registry is not consulted). -/
theorem determineDistTag_prerelease_next (version : String)
    (registry : Option String)
    (hdash : jsIncludes version "-" = true)
    (hlabel : jsStartsWith ((jsSplit version '-').getD 1 "") "beta" = true ∨
      jsStartsWith ((jsSplit version '-').getD 1 "") "rc" = true ∨
      jsStartsWith ((jsSplit version '-').getD 1 "") "alpha" = true) :
    determineDistTag version registry = "next" := by
  have hq : qualifiesForNext version = true := by
    rw [qualifiesForNext, hdash]
    rcases hlabel with h | h | h <;>
      simp only [List.getD_eq_getElem?_getD] at h <;> simp [h]
  simp [determineDistTag, hq]

theorem determineDistTag_prerelease_next_witness :
    determineDistTag "1.2.0-beta.0" (some "9.9.9") = "next" :=
  determineDistTag_prerelease_next "1.2.0-beta.0" (some "9.9.9") (by decide)
    (Or.inl (by decide))

/-- C2: for a candidate version without a qualifying prerelease label,
when the registry query succeeds with a non-empty (trimmed) published
version and both leading major components parse, a strictly smaller
candidate major yields the `previous` tag. -/
theorem determineDistTag_older_major_previous (version raw : String)
    (c l : Int)
    (hq : qualifiesForNext version = false)
    (hne : (jsTrim raw).data.isEmpty = false)
    (hc : parseIntJS ((jsSplit version '.').getD 0 "") = some c)
    (hl : parseIntJS ((jsSplit (jsTrim raw) '.').getD 0 "") = some l)
    (hlt : c < l) :
    determineDistTag version (some raw) = "previous" := by
  simp only [List.getD_eq_getElem?_getD] at hc hl
  simp [determineDistTag, hq, hne, hc, hl, intLtJS, hlt]

theorem determineDistTag_older_major_previous_witness :
    determineDistTag "1.5.0" (some "2.0.0") = "previous" :=
  determineDistTag_older_major_previous "1.5.0" "2.0.0" 1 2 (by decide)
    (by decide) (by decide) (by decide) (by decide)

/-- C3: for a candidate version without a qualifying prerelease label,
`determineDistTag` returns `latest` both when the registry query fails
(the run does not fail: the function still returns a tag) and when the
candidate's major component is at least the published one. -/
theorem determineDistTag_latest_on_failure_or_ge (version : String)
    (hq : qualifiesForNext version = false) :
    determineDistTag version none = "latest" ∧
    (∀ raw : String, ∀ c l : Int,
      parseIntJS ((jsSplit version '.').getD 0 "") = some c →
      parseIntJS ((jsSplit (jsTrim raw) '.').getD 0 "") = some l →
      l ≤ c →
      determineDistTag version (some raw) = "latest") := by
  constructor
  · simp [determineDistTag, hq]
  · intro raw c l hc hl hle
    have hnlt : ¬c < l := not_lt.mpr hle
    simp only [List.getD_eq_getElem?_getD] at hc hl
    cases hE : (jsTrim raw).data.isEmpty with
    | true => simp [determineDistTag, hq, hE]
    | false => simp [determineDistTag, hq, hE, hc, hl, intLtJS, hnlt]

theorem determineDistTag_latest_on_failure_or_ge_witness :
    determineDistTag "1.2.0" none = "latest" ∧
      determineDistTag "3.0.0" (some "2.0.0") = "latest" :=
  ⟨(determineDistTag_latest_on_failure_or_ge "1.2.0" (by decide)).1,
    (determineDistTag_latest_on_failure_or_ge "3.0.0" (by decide)).2
      "2.0.0" 3 2 (by decide) (by decide) (by decide)⟩

/-- C10: a version string with no `-` whose leading dot-separated segment
is not numeric (`parseInt` gives `NaN`) resolves to `latest` even when the
registry query succeeds, because the `NaN` comparison is false. -/
theorem determineDistTag_nonnumeric_major_latest (version raw : String)
    (hdash : jsIncludes version "-" = false)
    (hmajor : parseIntJS ((jsSplit version '.').getD 0 "") = none) :
    determineDistTag version (some raw) = "latest" := by
  have hq : qualifiesForNext version = false := by
    rw [qualifiesForNext, hdash, Bool.false_and]
  simp only [List.getD_eq_getElem?_getD] at hmajor
  cases hE : (jsTrim raw).data.isEmpty with
  | true => simp [determineDistTag, hq, hE]
  | false => simp [determineDistTag, hq, hE, hmajor, intLtJS]

theorem determineDistTag_nonnumeric_major_latest_witness :
    determineDistTag "minor" (some "2.0.0") = "latest" :=
  determineDistTag_nonnumeric_major_latest "minor" "2.0.0" (by decide)
    (by decide)

/-- C4: on the staging path (execution-context marker falsy) a relative
bump keyword makes the orchestrator fail with the invalid-version-specifier
condition; the error result carries no effect trace, so no file-system or
external operation has occurred. -/
theorem staging_relative_keyword_fails_first (ci registry : Option String)
    (o : Options)
    (hci : ciTruthy ci = false)
    (hkw : isRelativeVersionKeyword o.version = true) :
    mainRelease ci registry o = .error .invalidVersionSpecifier ∧
      (∀ effects : List Effect, mainRelease ci registry o ≠ .ok effects) := by
  have hmain : mainRelease ci registry o = createGitHubRelease o := by
    simp [mainRelease, hci]
  rw [hmain, createGitHubRelease, hkw]
  exact ⟨rfl, fun effects h => by simp at h⟩

theorem staging_relative_keyword_fails_first_witness :
    mainRelease none (some "1.0.0")
        { version := "minor", dryRun := false, «from» := none,
          gitRemote := "origin" } =
      .error .invalidVersionSpecifier :=
  (staging_relative_keyword_fails_first none (some "1.0.0")
    { version := "minor", dryRun := false, «from» := none,
      gitRemote := "origin" } (by decide) (by decide)).1

/-- C5: on the publish path with `dryRun` set, the trace is exactly the
staging copy, the version bump, the tag computation and report, the
printed publish command, and a successful exit with code 0; no publish
operation appears in the trace. -/
theorem publish_dry_run_prints_and_exits_zero (ci registry : Option String)
    (o : Options)
    (hci : ciTruthy ci = true)
    (hdry : o.dryRun = true) :
    mainRelease ci registry o = .ok (publishToNpm registry o) ∧
      publishToNpm registry o =
        [Effect.print "Copying packages to build directory...",
         Effect.copyPackages,
         Effect.print ("Bumping versions to " ++ o.version ++ "..."),
         Effect.bumpVersion o.version,
         Effect.print ("Publishing with tag: " ++
           determineDistTag o.version registry),
         Effect.print ("[DRY RUN] Would execute: " ++
           publishCmdFor (determineDistTag o.version registry)),
         Effect.exitProcess 0] ∧
      (∀ cmd : String, Effect.publish cmd ∉ publishToNpm registry o) := by
  refine ⟨by simp [mainRelease, hci], ?_, ?_⟩
  · simp [publishToNpm, hdry]
  · intro cmd
    simp [publishToNpm, hdry]

theorem publish_dry_run_prints_and_exits_zero_witness :
    Effect.exitProcess 0 ∈
      publishToNpm (some "1.0.0")
        { version := "1.2.0", dryRun := true, «from» := none,
          gitRemote := "origin" } := by
  rw [(publish_dry_run_prints_and_exits_zero (some "true") (some "1.0.0")
    { version := "1.2.0", dryRun := true, «from» := none,
      gitRemote := "origin" } (by decide) (by decide)).2.1]
  simp

/-- C6: the main IIFE branches on the single execution-context marker
`process.env.CI`: an absent marker selects the staging path, a present
(non-empty, hence truthy) marker selects the publish path, and every run
is one of these two behaviors. -/
theorem main_branches_on_ci_marker (ci registry : Option String)
    (o : Options) :
    (mainRelease ci registry o = createGitHubRelease o ∨
      mainRelease ci registry o = .ok (publishToNpm registry o)) ∧
      (ci = none → mainRelease ci registry o = createGitHubRelease o) ∧
      (∀ s : String, ci = some s → s ≠ "" →
        mainRelease ci registry o = .ok (publishToNpm registry o)) := by
  refine ⟨?_, ?_, ?_⟩
  · rw [mainRelease]
    cases ciTruthy ci with
    | true => exact Or.inr rfl
    | false => exact Or.inl rfl
  · intro h; subst h; simp [mainRelease, ciTruthy]
  · intro s h hs; subst h; simp [mainRelease, ciTruthy, hs]

theorem main_branches_on_ci_marker_witness :
    mainRelease none (some "1.0.0")
        { version := "1.2.0", dryRun := false, «from» := none,
          gitRemote := "origin" } =
      createGitHubRelease
        { version := "1.2.0", dryRun := false, «from» := none,
          gitRemote := "origin" } ∧
      mainRelease (some "true") (some "1.0.0")
          { version := "1.2.0", dryRun := false, «from» := none,
            gitRemote := "origin" } =
        .ok (publishToNpm (some "1.0.0")
          { version := "1.2.0", dryRun := false, «from» := none,
            gitRemote := "origin" }) :=
  ⟨(main_branches_on_ci_marker none (some "1.0.0")
      { version := "1.2.0", dryRun := false, «from» := none,
        gitRemote := "origin" }).2.1 rfl,
    (main_branches_on_ci_marker (some "true") (some "1.0.0")
      { version := "1.2.0", dryRun := false, «from» := none,
        gitRemote := "origin" }).2.2 "true" rfl (by decide)⟩

/-- C9: the publish path never performs the relative-keyword check: with
the marker present, a relative bump keyword flows through unchanged — the
run succeeds and the trace contains the copy, the bump with the keyword as
specifier, and (outside dry-run) the publish with the resolved tag. -/
theorem publish_path_accepts_relative_keyword (ci registry : Option String)
    (o : Options)
    (hci : ciTruthy ci = true)
    (hkw : isRelativeVersionKeyword o.version = true) :
    mainRelease ci registry o = .ok (publishToNpm registry o) ∧
      Effect.copyPackages ∈ publishToNpm registry o ∧
      Effect.bumpVersion o.version ∈ publishToNpm registry o ∧
      (o.dryRun = false →
        Effect.publish (publishCmdFor (determineDistTag o.version registry)) ∈
          publishToNpm registry o) := by
  refine ⟨by simp [mainRelease, hci], ?_, ?_, ?_⟩
  · simp [publishToNpm]
  · simp [publishToNpm]
  · intro hdry; simp [publishToNpm, hdry]

theorem publish_path_accepts_relative_keyword_witness :
    Effect.bumpVersion "minor" ∈
      publishToNpm (some "1.0.0")
        { version := "minor", dryRun := false, «from» := none,
          gitRemote := "origin" } :=
  (publish_path_accepts_relative_keyword (some "true") (some "1.0.0")
    { version := "minor", dryRun := false, «from» := none,
      gitRemote := "origin" } (by decide) (by decide)).2.2.1

/-- C7: the copy never depends on the previous build-directory contents
(delete and recreate), and a file lands in the build directory exactly
when it comes from a top-level package directory and its full source path
contains neither `node_modules` nor `__tests__`; the file is kept with its
path and contents unchanged. -/
theorem copyPackagesToBuild_characterization (packagesRoot : String)
    (prevBuild files : List SrcFile) (f : SrcFile) :
    (∀ prevBuild2 : List SrcFile,
      copyPackagesToBuild packagesRoot prevBuild2 files =
        copyPackagesToBuild packagesRoot prevBuild files) ∧
    (f ∈ copyPackagesToBuild packagesRoot prevBuild files ↔
      (f ∈ files ∧ 2 ≤ f.path.length ∧
        jsIncludes (packagesRoot ++ "/" ++ pathStr f.path) "node_modules"
          = false ∧
        jsIncludes (packagesRoot ++ "/" ++ pathStr f.path) "__tests__"
          = false)) := by
  constructor
  · intro _; rfl
  · rw [copyPackagesToBuild, List.mem_filter]
    constructor
    · rintro ⟨hmem, hp⟩
      simp only [Bool.and_eq_true, decide_eq_true_eq] at hp
      obtain ⟨hlen, hcopied⟩ := hp
      have hne : f.path ≠ [] := by
        intro h; rw [h] at hlen; simp at hlen
      rw [copiedAux_eq_filter_full f.path (packagesRoot ++ "/") hne,
        copyFilterJS] at hcopied
      simp only [Bool.and_eq_true, Bool.not_eq_true'] at hcopied
      exact ⟨hmem, hlen, hcopied.1, hcopied.2⟩
    · rintro ⟨hmem, hlen, hnm, hts⟩
      have hne : f.path ≠ [] := by
        intro h; rw [h] at hlen; simp at hlen
      refine ⟨hmem, ?_⟩
      simp only [Bool.and_eq_true, decide_eq_true_eq]
      refine ⟨hlen, ?_⟩
      rw [copiedAux_eq_filter_full f.path (packagesRoot ++ "/") hne,
        copyFilterJS, hnm, hts]
      rfl

/-- C8: `parseArgs` defaults: `version` is the last non-`--` positional
argument, defaulting to the relative keyword `minor`; `dryRun` is true
exactly when the `--dry-run` flag appears; `«from»` is the value of the
last `--from=<ref>` argument and absent otherwise; `gitRemote` is the
value of the last `--git-remote=<name>` argument, defaulting to
`origin`. -/
theorem parseArgs_defaults_and_flags (args : List String) :
    parseArgs [] =
      { version := "minor", dryRun := false, «from» := none,
        gitRemote := "origin" } ∧
    (parseArgs args).version =
      ((args.filter (fun a => !(jsStartsWith a "--"))).getLast?).getD
        "minor" ∧
    (parseArgs args).dryRun =
      args.any (fun a => decide (a = "--dry-run")) ∧
    (parseArgs args).«from» =
      ((args.filter (fun a => jsStartsWith a "--from=")).getLast?).map
        (fun a => (jsSplit a '=').getD 1 "") ∧
    (parseArgs args).gitRemote =
      ((((args.filter
          (fun a => jsStartsWith a "--git-remote=")).getLast?).map
        (fun a => (jsSplit a '=').getD 1 "")).getD "origin") := by
  refine ⟨rfl, ?_, ?_, ?_, ?_⟩
  · simpa [defaultOptions] using foldl_parseStep_version args defaultOptions
  · simpa [defaultOptions] using foldl_parseStep_dryRun args defaultOptions
  · have h := foldl_parseStep_from args defaultOptions
    rw [parseArgs, h]
    cases (args.filter (fun a => jsStartsWith a "--from=")).getLast? with
    | none => rfl
    | some a => rfl
  · simpa [defaultOptions] using foldl_parseStep_gitRemote args defaultOptions
